import Mathlib

/-!
Shallow embedding of the PMSM torque-speed simulation core
(`src/utils/motorPhysics.ts`) and proofs of the specification claims.

The source is TypeScript operating on IEEE doubles; the embedding models
its arithmetic over the real numbers, which is the intended mathematical
semantics of the code (the spec and the code comments state the formulas
over reals).  Loop counters and swept speeds are exact integers in the
source (`rpm` starts at 0 and is incremented by the integer `stepRPM`),
so they are modelled as naturals.
-/

namespace MotorPhysics

/-- Motor type, informational only (`src/unnamed/part_002`, `MotorType`). -/
inductive MotorType
| ipmsm
| spmsm
deriving DecidableEq

/-- Control strategy (`src/unnamed/part_002`, `ControlStrategy`):
the string union `'MTPA' | 'Id=0'`. -/
inductive ControlStrategy
| mtpa
| idZero
deriving DecidableEq

/-- Input parameter record (`src/unnamed/part_002`, `MotorParams`). -/
structure MotorParams where
  motorType : MotorType
  controlStrategy : ControlStrategy
  enableFluxWeakening : Bool
  rs : ℝ
  ld : ℝ
  lq : ℝ
  psif : ℝ
  p : ℝ
  vdc : ℝ
  voltageUtilization : ℝ
  imax : ℝ
  maxSpeed : ℝ

/-- Output point (`src/unnamed/part_002`, `SimulationPoint`). -/
structure SimulationPoint where
  speedRPM : ℕ
  torque : ℝ
  power : ℝ
  voltageIndex : ℝ
  currentAngle : ℝ
  id : ℝ
  iq : ℝ

/-- Output aggregate (`src/unnamed/part_002`, `SimulationResult`). -/
structure SimulationResult where
  points : List SimulationPoint
  maxTorque : ℝ
  baseSpeed : ℕ
  maxPower : ℝ

/-- Phase-voltage peak limit `vLim = (vdc / sqrt 3) * voltageUtilization`
(`motorPhysics.ts` lines 18 and 68). -/
noncomputable def vLimOf (mp : MotorParams) : ℝ :=
  mp.vdc / Real.sqrt 3 * mp.voltageUtilization

/-- Theoretical maximum speed estimator
(`motorPhysics.ts`, `calculateTheoreticalMaxSpeed`, lines 14-58).
`Math.ceil` on a real is `Int.ceil`; the returned RPM value is the cast of
the resulting integer. -/
noncomputable def calculateTheoreticalMaxSpeed (mp : MotorParams) : ℝ :=
  let vLim := mp.vdc / Real.sqrt 3 * mp.voltageUtilization
  if mp.enableFluxWeakening = false then
    let maxRadS := vLim / mp.psif
    let maxRPM := maxRadS * 60 / (2 * Real.pi * mp.p)
    ((⌈maxRPM / 100⌉ * 100 : ℤ) : ℝ)
  else
    let ich := mp.psif / mp.ld
    if mp.imax ≥ ich then (20000 : ℝ)
    else
      let residualFlux := |mp.psif - mp.ld * mp.imax|
      if residualFlux < 1e-9 then (20000 : ℝ)
      else
        let maxRadS := vLim / residualFlux
        let maxRPM := maxRadS * 60 / (2 * Real.pi * mp.p)
        ((⌈maxRPM / 100⌉ * 100 : ℤ) : ℝ)

/-- Torque at current magnitude `i_mag` and current angle `rad`
(`motorPhysics.ts` lines 80-84, helper `getTorque`). -/
noncomputable def getTorque (mp : MotorParams) (i_mag rad : ℝ) : ℝ :=
  let i_d := -i_mag * Real.sin rad
  let i_q := i_mag * Real.cos rad
  1.5 * mp.p * (mp.psif * i_q + (mp.ld - mp.lq) * i_d * i_q)

/-- One step of the MTPA base-angle scan (`motorPhysics.ts` lines 97-104):
index `k` corresponds to the scanned angle `b = k * 0.5` degrees. -/
noncomputable def mtpaStep (mp : MotorParams) (acc : ℝ × ℝ) (k : ℕ) : ℝ × ℝ :=
  let rad := (k : ℝ) * 0.5 * Real.pi / 180
  let t := getTorque mp mp.imax rad
  if acc.1 < t then (t, rad) else acc

/-- The MTPA base-angle scan loop, processing `n` indices starting at `k`;
`acc = (maxT_static, betaStart)`. -/
noncomputable def mtpaScanGo (mp : MotorParams) : ℕ → ℕ → ℝ × ℝ → ℝ × ℝ
| 0, _, acc => acc
| n + 1, k, acc => mtpaScanGo mp n (k + 1) (mtpaStep mp acc k)

/-- Base operating point search (`motorPhysics.ts` lines 86-105):
returns `(maxT_static, betaStart)`.  The `Id=0` strategy forces `beta = 0`;
the MTPA strategy scans `b` over `0, 0.5, ..., 90` degrees (181 indices). -/
noncomputable def baseSearch (mp : MotorParams) : ℝ × ℝ :=
  match mp.controlStrategy with
  | ControlStrategy.idZero => (getTorque mp mp.imax 0, 0)
  | ControlStrategy.mtpa => mtpaScanGo mp 181 0 (0, 0)

/-- The fixed base current angle `betaStart` (`motorPhysics.ts` lines 87-105). -/
noncomputable def betaStart (mp : MotorParams) : ℝ := (baseSearch mp).2

/-- The base-point torque `maxT_static` (`motorPhysics.ts` lines 88-110). -/
noncomputable def maxTStatic (mp : MotorParams) : ℝ := (baseSearch mp).1

/-- Base d-axis current (`motorPhysics.ts` line 108). -/
noncomputable def id_base (mp : MotorParams) : ℝ := -mp.imax * Real.sin (betaStart mp)

/-- Base q-axis current (`motorPhysics.ts` line 109). -/
noncomputable def iq_base (mp : MotorParams) : ℝ := mp.imax * Real.cos (betaStart mp)

/-- Electrical speed in rad/s for a mechanical speed in RPM
(`motorPhysics.ts` line 114). -/
noncomputable def omegaE (mp : MotorParams) (rpm : ℕ) : ℝ :=
  (rpm : ℝ) * 2 * Real.pi / 60 * mp.p

/-- Voltage magnitude at an operating point (`motorPhysics.ts` lines 121-125,
helper `getVoltageMag`). -/
noncomputable def getVoltageMag (mp : MotorParams) (omega cId cIq : ℝ) : ℝ :=
  let vd := mp.rs * cId - omega * mp.lq * cIq
  let vq := mp.rs * cIq + omega * (mp.ld * cId + mp.psif)
  Real.sqrt (vd * vd + vq * vq)

/-- Flux-weakening angle bisection (`motorPhysics.ts` lines 145-162).
Arguments after the fuel are `low`, `high`, `optimalB`, `foundSolution`;
the result is `(optimalB, foundSolution)` after the remaining iterations. -/
noncomputable def fwSearchGo (mp : MotorParams) (vLim omega : ℝ) :
    ℕ → ℝ → ℝ → ℝ → Bool → ℝ × Bool
| 0, _, _, optimalB, found => (optimalB, found)
| n + 1, low, high, optimalB, found =>
  let mid := (low + high) / 2
  let testId := -mp.imax * Real.sin mid
  let testIq := mp.imax * Real.cos mid
  if getVoltageMag mp omega testId testIq ≤ vLim then
    fwSearchGo mp vLim omega n low mid mid true
  else
    fwSearchGo mp vLim omega n mid high optimalB found

/-- One step of the coarse local MTPA scan at trial magnitude `midI`
(`motorPhysics.ts` lines 198-205): index `k` is the angle `b = 5 * k` degrees. -/
noncomputable def coarseStep (mp : MotorParams) (midI : ℝ) (acc : ℝ × ℝ) (k : ℕ) : ℝ × ℝ :=
  let rad := (k : ℝ) * 5 * Real.pi / 180
  let t := 1.5 * mp.p * (mp.psif * (midI * Real.cos rad) +
    (mp.ld - mp.lq) * (-midI * Real.sin rad) * (midI * Real.cos rad))
  if acc.1 < t then (t, rad) else acc

/-- Coarse local MTPA scan loop (`motorPhysics.ts` lines 198-205);
`acc = (maxT_local, tBeta)`. -/
noncomputable def coarseGo (mp : MotorParams) (midI : ℝ) : ℕ → ℕ → ℝ × ℝ → ℝ × ℝ
| 0, _, acc => acc
| n + 1, k, acc => coarseGo mp midI n (k + 1) (coarseStep mp midI acc k)

/-- One step of the fine local MTPA scan (`motorPhysics.ts` lines 208-216):
index `i` is the angle `b = bestDeg - 4 + i` degrees. -/
noncomputable def fineStep (mp : MotorParams) (midI bestDeg : ℝ) (acc : ℝ × ℝ) (i : ℕ) :
    ℝ × ℝ :=
  let b := bestDeg - 4 + (i : ℝ)
  let rad := b * Real.pi / 180
  let t := 1.5 * mp.p * (mp.psif * (midI * Real.cos rad) +
    (mp.ld - mp.lq) * (-midI * Real.sin rad) * (midI * Real.cos rad))
  if acc.1 < t then (t, rad) else acc

/-- Fine local MTPA scan loop (`motorPhysics.ts` lines 207-216). -/
noncomputable def fineGo (mp : MotorParams) (midI bestDeg : ℝ) : ℕ → ℕ → ℝ × ℝ → ℝ × ℝ
| 0, _, acc => acc
| n + 1, i, acc => fineGo mp midI bestDeg n (i + 1) (fineStep mp midI bestDeg acc i)

/-- The control-strategy-consistent angle for a trial current magnitude
(`motorPhysics.ts` lines 188-217): `0` under `Id=0`; under MTPA a coarse scan
over `0,5,...,90` degrees (19 indices) followed by a fine scan over
`bestDeg-4, ..., bestDeg+4` degrees (9 indices), carrying `maxT_local` over. -/
noncomputable def localAngle (mp : MotorParams) (midI : ℝ) : ℝ :=
  match mp.controlStrategy with
  | ControlStrategy.idZero => 0
  | ControlStrategy.mtpa =>
    let coarse := coarseGo mp midI 19 0 (-1e9, 0)
    let bestDeg := coarse.2 * 180 / Real.pi
    (fineGo mp midI bestDeg 9 0 coarse).2

/-- Voltage-limited current-magnitude bisection (`motorPhysics.ts` lines
179-230).  Arguments after the fuel are `lowI`, `highI` and the best known
feasible triple `(validId, validIq, validBeta)`. -/
noncomputable def magSearchGo (mp : MotorParams) (vLim omega : ℝ) :
    ℕ → ℝ → ℝ → ℝ × ℝ × ℝ → ℝ × ℝ × ℝ
| 0, _, _, valid => valid
| n + 1, lowI, highI, valid =>
  let midI := (lowI + highI) / 2
  let tBeta := localAngle mp midI
  let tId := -midI * Real.sin tBeta
  let tIq := midI * Real.cos tBeta
  if getVoltageMag mp omega tId tIq ≤ vLim then
    magSearchGo mp vLim omega n midI highI (tId, tIq, tBeta)
  else
    magSearchGo mp vLim omega n lowI midI valid

/-- Per-speed operating point resolution (`motorPhysics.ts` lines 116-236):
returns `(currentId, currentIq, currentBeta)` for the given electrical speed.
Region 1 keeps the base point; otherwise either the flux-weakening angle
bisection (20 iterations, falling back to the zero-current point) or the
current-magnitude bisection (15 iterations) resolves the point. -/
noncomputable def solvePoint (mp : MotorParams) (vLim omega : ℝ) : ℝ × ℝ × ℝ :=
  if getVoltageMag mp omega (id_base mp) (iq_base mp) ≤ vLim then
    (id_base mp, iq_base mp, betaStart mp)
  else if mp.enableFluxWeakening then
    let r := fwSearchGo mp vLim omega 20 (betaStart mp) (Real.pi / 2) (Real.pi / 2) false
    if r.2 then (-mp.imax * Real.sin r.1, mp.imax * Real.cos r.1, r.1)
    else (0, 0, betaStart mp)
  else
    magSearchGo mp vLim omega 15 0 mp.imax (0, 0, 0)

/-- Construction of the output point for one swept speed
(`motorPhysics.ts` lines 238-259). -/
noncomputable def mkPoint (mp : MotorParams) (vLim : ℝ) (rpm : ℕ) : SimulationPoint :=
  let omega := omegaE mp rpm
  let c := solvePoint mp vLim omega
  let torque := 1.5 * mp.p * (mp.psif * c.2.1 + (mp.ld - mp.lq) * c.1 * c.2.1)
  let powerW := torque * ((rpm : ℝ) * 2 * Real.pi / 60)
  let vMagFinal := getVoltageMag mp omega c.1 c.2.1
  { speedRPM := rpm
    torque := max 0 torque
    power := max 0 (powerW / 1000)
    voltageIndex := min 1 (vMagFinal / vLim)
    currentAngle := c.2.2 * 180 / Real.pi
    id := c.1
    iq := c.2.1 }

/-- Sweep step size `stepRPM = max(10, ceil(maxSpeed / 100))`
(`motorPhysics.ts` line 77); a natural number (it is at least 10). -/
noncomputable def stepRPM (mp : MotorParams) : ℕ := max 10 (⌈mp.maxSpeed / 100⌉.toNat)

/-- Mutable sweep accumulators of `calculateMotorCharacteristics`
(`motorPhysics.ts` lines 71-74). -/
structure SweepState where
  baseSpeed : ℕ
  baseSpeedFound : Bool
  maxPower : ℝ

/-- The speed sweep loop (`motorPhysics.ts` lines 113-263).  `fuel` bounds the
number of remaining iterations; the loop guard `rpm <= maxSpeed` is checked
first, the base-speed accumulator is updated on the first voltage violation,
the point is appended, and the sweep stops early once `rpm > 100` and the
clamped torque falls below `0.01`.  With the fuel used by
`calculateMotorCharacteristics` the fuel never runs out while the guard holds,
so the embedding agrees with the source loop. -/
noncomputable def sweepAux (mp : MotorParams) (vLim : ℝ) (step : ℕ) :
    ℕ → ℕ → SweepState → List SimulationPoint × SweepState
| 0, _, st => ([], st)
| fuel + 1, rpm, st =>
  if (rpm : ℝ) ≤ mp.maxSpeed then
    let st1 :=
      if getVoltageMag mp (omegaE mp rpm) (id_base mp) (iq_base mp) ≤ vLim then st
      else if st.baseSpeedFound then st
      else { st with baseSpeed := rpm - step, baseSpeedFound := true }
    let pt := mkPoint mp vLim rpm
    let st2 := if st1.maxPower < pt.power then { st1 with maxPower := pt.power } else st1
    if 100 < rpm ∧ pt.torque < 0.01 then ([pt], st2)
    else
      let r := sweepAux mp vLim step fuel (rpm + step) st2
      (pt :: r.1, r.2)
  else ([], st)

/-- The curve generator (`motorPhysics.ts`, `calculateMotorCharacteristics`,
lines 64-271).  The fuel `⌊maxSpeed⌋.toNat + 1` dominates the iteration count:
while the guard `rpm ≤ maxSpeed` holds at iteration `k` we have
`k ≤ k * step ≤ maxSpeed`, so the fuel is still positive. -/
noncomputable def calculateMotorCharacteristics (mp : MotorParams) : SimulationResult :=
  let vLim := mp.vdc / Real.sqrt 3 * mp.voltageUtilization
  let r := sweepAux mp vLim (stepRPM mp) (⌊mp.maxSpeed⌋.toNat + 1) 0 ⟨0, false, 0⟩
  { points := r.1
    maxTorque := maxTStatic mp
    baseSpeed := r.2.baseSpeed
    maxPower := r.2.maxPower }

/-- The sweep enters Region 2 at speed `rpm` when the base-point voltage
magnitude strictly exceeds the voltage limit (`motorPhysics.ts` lines
128-136). -/
noncomputable def baseViolation (mp : MotorParams) (rpm : ℕ) : Prop :=
  vLimOf mp < getVoltageMag mp (omegaE mp rpm) (id_base mp) (iq_base mp)

/-! ### Concrete parameter records used by the witnesses -/

/-- A degenerate but data-model-conforming parameter record: `Id=0` strategy,
flux weakening disabled, zero maximum current, zero sweep ceiling. -/
noncomputable def pZero : MotorParams :=
  { motorType := MotorType.ipmsm
    controlStrategy := ControlStrategy.idZero
    enableFluxWeakening := false
    rs := 0
    ld := 1
    lq := 1
    psif := 1
    p := 1
    vdc := 2
    voltageUtilization := 1
    imax := 0
    maxSpeed := 0 }

/-- The record `pZero` with flux weakening enabled. -/
noncomputable def pZeroFW : MotorParams :=
  { pZero with enableFluxWeakening := true }

/-- A record on which the flux-weakening search can never satisfy the voltage
bound: all impedances are zero, so the voltage magnitude is the constant
back-EMF `omega * psif` no matter the currents, while the voltage limit is
zero (`vdc = 0`). -/
noncomputable def pCollapse : MotorParams :=
  { motorType := MotorType.ipmsm
    controlStrategy := ControlStrategy.idZero
    enableFluxWeakening := true
    rs := 0
    ld := 0
    lq := 0
    psif := 1
    p := 1
    vdc := 0
    voltageUtilization := 1
    imax := 0
    maxSpeed := 0 }

/-! ### Field accessor lemmas for the constructed points -/

theorem mkPoint_speedRPM (mp : MotorParams) (vLim : ℝ) (rpm : ℕ) :
    (mkPoint mp vLim rpm).speedRPM = rpm := rfl

theorem mkPoint_id (mp : MotorParams) (vLim : ℝ) (rpm : ℕ) :
    (mkPoint mp vLim rpm).id = (solvePoint mp vLim (omegaE mp rpm)).1 := rfl

theorem mkPoint_iq (mp : MotorParams) (vLim : ℝ) (rpm : ℕ) :
    (mkPoint mp vLim rpm).iq = (solvePoint mp vLim (omegaE mp rpm)).2.1 := rfl

theorem mkPoint_currentAngle (mp : MotorParams) (vLim : ℝ) (rpm : ℕ) :
    (mkPoint mp vLim rpm).currentAngle =
      (solvePoint mp vLim (omegaE mp rpm)).2.2 * 180 / Real.pi := rfl

theorem mkPoint_voltageIndex (mp : MotorParams) (vLim : ℝ) (rpm : ℕ) :
    (mkPoint mp vLim rpm).voltageIndex =
      min 1 (getVoltageMag mp (omegaE mp rpm) (solvePoint mp vLim (omegaE mp rpm)).1
        (solvePoint mp vLim (omegaE mp rpm)).2.1 / vLim) := rfl

theorem getVoltageMag_nonneg (mp : MotorParams) (omega cId cIq : ℝ) :
    0 ≤ getVoltageMag mp omega cId cIq := Real.sqrt_nonneg _

/-! ### Structural lemmas about the sweep loop -/

theorem range_map_shift (r s n : ℕ) :
    (List.range n).map ((fun i => r + s * i) ∘ Nat.succ) =
      (List.range n).map (fun i => r + s + s * i) := by
  refine List.map_congr_left fun a _ => ?_
  simp [Function.comp, Nat.mul_succ]
  ring

theorem sweepAux_speeds (mp : MotorParams) (vLim : ℝ) (step : ℕ) :
    ∀ (fuel rpm : ℕ) (st : SweepState),
      (sweepAux mp vLim step fuel rpm st).1.map SimulationPoint.speedRPM =
        (List.range (sweepAux mp vLim step fuel rpm st).1.length).map
          (fun i => rpm + step * i) := by
  intro fuel
  induction fuel with
  | zero => intro rpm st; simp [sweepAux]
  | succ n ih =>
    intro rpm st
    rw [sweepAux]
    by_cases hg : (rpm : ℝ) ≤ mp.maxSpeed
    · rw [if_pos hg]
      dsimp only
      by_cases hb : 100 < rpm ∧ (mkPoint mp vLim rpm).torque < 0.01
      · rw [if_pos hb]
        simp [mkPoint_speedRPM, List.range_succ]
      · rw [if_neg hb]
        dsimp only
        rw [List.map_cons, mkPoint_speedRPM, List.length_cons,
          List.range_succ_eq_map, List.map_cons, List.map_map,
          range_map_shift rpm step, ← ih (rpm + step)]
        simp
    · rw [if_neg hg]; simp

theorem sweepAux_points_forall (mp : MotorParams) (vLim : ℝ) (step : ℕ)
    (P : SimulationPoint → Prop) (hP : ∀ rpm : ℕ, P (mkPoint mp vLim rpm)) :
    ∀ (fuel rpm : ℕ) (st : SweepState),
      List.Forall P (sweepAux mp vLim step fuel rpm st).1 := by
  intro fuel
  induction fuel with
  | zero => intro rpm st; simp [sweepAux, List.Forall]
  | succ n ih =>
    intro rpm st
    rw [sweepAux]
    by_cases hg : (rpm : ℝ) ≤ mp.maxSpeed
    · rw [if_pos hg]
      dsimp only
      by_cases hb : 100 < rpm ∧ (mkPoint mp vLim rpm).torque < 0.01
      · rw [if_pos hb]
        exact (List.forall_cons P _ _).mpr ⟨hP rpm, by simp [List.Forall]⟩
      · rw [if_neg hb]
        exact (List.forall_cons P _ _).mpr ⟨hP rpm, ih (rpm + step) _⟩
    · rw [if_neg hg]; simp [List.Forall]

theorem sweepAux_no_collapse_before_last (mp : MotorParams) (vLim : ℝ) (step : ℕ) :
    ∀ (fuel rpm : ℕ) (st : SweepState),
      List.Forall (fun pt => ¬(100 < pt.speedRPM ∧ pt.torque < 0.01))
        (sweepAux mp vLim step fuel rpm st).1.dropLast := by
  intro fuel
  induction fuel with
  | zero => intro rpm st; simp [sweepAux, List.Forall]
  | succ n ih =>
    intro rpm st
    rw [sweepAux]
    by_cases hg : (rpm : ℝ) ≤ mp.maxSpeed
    · rw [if_pos hg]
      dsimp only
      by_cases hb : 100 < rpm ∧ (mkPoint mp vLim rpm).torque < 0.01
      · rw [if_pos hb]
        simp [List.Forall]
      · rw [if_neg hb]
        dsimp only
        rcases hr : (sweepAux mp vLim step n (rpm + step) _).1 with _ | ⟨a, l⟩
        · simp [List.Forall]
        · rw [List.dropLast_cons₂, List.forall_cons]
          refine ⟨?_, ?_⟩
          · rw [mkPoint_speedRPM]; exact hb
          · rw [← hr]
            exact ih (rpm + step) _
    · rw [if_neg hg]; simp [List.Forall]

/-! ### Claims C6, C7, C8: sweep grid, early termination, voltage index -/

/-- C6: for a nonnegative sweep ceiling the point sequence is non-empty,
its first point is at speed 0, and the speeds form the exact arithmetic grid
`0, stepRPM, 2 * stepRPM, ...` (consecutive points spaced by exactly
`stepRPM = max(10, ceil(maxSpeed / 100))`, hence strictly increasing). -/
theorem claim_C6_speed_grid (mp : MotorParams) (h : 0 ≤ mp.maxSpeed) :
    (calculateMotorCharacteristics mp).points ≠ []
    ∧ ((calculateMotorCharacteristics mp).points.head?.map SimulationPoint.speedRPM)
        = some 0
    ∧ (calculateMotorCharacteristics mp).points.map SimulationPoint.speedRPM =
        (List.range (calculateMotorCharacteristics mp).points.length).map
          (fun i => stepRPM mp * i) := by
  have hpts : (calculateMotorCharacteristics mp).points
      = (sweepAux mp (mp.vdc / Real.sqrt 3 * mp.voltageUtilization) (stepRPM mp)
          (⌊mp.maxSpeed⌋.toNat + 1) 0 ⟨0, false, 0⟩).1 := rfl
  have hcons : ∃ l, (sweepAux mp (mp.vdc / Real.sqrt 3 * mp.voltageUtilization)
      (stepRPM mp) (⌊mp.maxSpeed⌋.toNat + 1) 0 ⟨0, false, 0⟩).1
      = mkPoint mp (mp.vdc / Real.sqrt 3 * mp.voltageUtilization) 0 :: l := by
    rw [sweepAux]
    rw [if_pos (by simpa using h)]
    dsimp only
    rw [if_neg (fun hc => absurd hc.1 (by omega))]
    exact ⟨_, rfl⟩
  obtain ⟨l, hl⟩ := hcons
  refine ⟨?_, ?_, ?_⟩
  · rw [hpts, hl]
    exact List.cons_ne_nil _ _
  · rw [hpts, hl]
    rfl
  · rw [hpts, sweepAux_speeds mp (mp.vdc / Real.sqrt 3 * mp.voltageUtilization)
      (stepRPM mp) (⌊mp.maxSpeed⌋.toNat + 1) 0 ⟨0, false, 0⟩]
    exact List.map_congr_left fun a _ => by omega

/-- Witness for C6 at the concrete record `pZero` (sweep ceiling 0). -/
theorem claim_C6_speed_grid_witness :
    (0 : ℝ) ≤ pZero.maxSpeed ∧
    ((calculateMotorCharacteristics pZero).points ≠ []
    ∧ ((calculateMotorCharacteristics pZero).points.head?.map SimulationPoint.speedRPM)
        = some 0
    ∧ (calculateMotorCharacteristics pZero).points.map SimulationPoint.speedRPM =
        (List.range (calculateMotorCharacteristics pZero).points.length).map
          (fun i => stepRPM pZero * i)) :=
  ⟨le_refl 0, claim_C6_speed_grid pZero (le_refl 0)⟩

/-- C7: the sweep never continues past a collapsed point — every point of the
result other than possibly the last satisfies
`¬ (speedRPM > 100 ∧ torque < 0.01)`; equivalently, once a point with
`speedRPM > 100` and clamped torque below 0.01 is appended, no further point
follows it. -/
theorem claim_C7_early_termination (mp : MotorParams) :
    List.Forall (fun pt => ¬(100 < pt.speedRPM ∧ pt.torque < 0.01))
      (calculateMotorCharacteristics mp).points.dropLast := by
  have hpts : (calculateMotorCharacteristics mp).points
      = (sweepAux mp (mp.vdc / Real.sqrt 3 * mp.voltageUtilization) (stepRPM mp)
          (⌊mp.maxSpeed⌋.toNat + 1) 0 ⟨0, false, 0⟩).1 := rfl
  rw [hpts]
  exact sweepAux_no_collapse_before_last mp _ _ _ _ _

/-- Witness for C7 at the concrete record `pZero`. -/
theorem claim_C7_early_termination_witness :
    List.Forall (fun pt => ¬(100 < pt.speedRPM ∧ pt.torque < 0.01))
      (calculateMotorCharacteristics pZero).points.dropLast :=
  claim_C7_early_termination pZero

/-- C8: with a positive DC bus voltage and a positive utilization ratio,
every produced point has `voltageIndex` in the closed interval `[0, 1]`
(it is `min 1 (vMag / vLim)` with `vMag ≥ 0` and `vLim > 0`). -/
theorem claim_C8_voltage_index_clamped (mp : MotorParams)
    (hvdc : 0 < mp.vdc) (heta : 0 < mp.voltageUtilization) :
    List.Forall (fun pt => 0 ≤ pt.voltageIndex ∧ pt.voltageIndex ≤ 1)
      (calculateMotorCharacteristics mp).points := by
  have h3 : 0 < Real.sqrt 3 := Real.sqrt_pos.mpr (by norm_num)
  have hv : 0 < mp.vdc / Real.sqrt 3 * mp.voltageUtilization :=
    mul_pos (div_pos hvdc h3) heta
  have hpts : (calculateMotorCharacteristics mp).points
      = (sweepAux mp (mp.vdc / Real.sqrt 3 * mp.voltageUtilization) (stepRPM mp)
          (⌊mp.maxSpeed⌋.toNat + 1) 0 ⟨0, false, 0⟩).1 := rfl
  rw [hpts]
  refine sweepAux_points_forall mp _ _ _ (fun rpm => ?_) _ _ _
  rw [mkPoint_voltageIndex]
  exact ⟨le_min (by norm_num) (div_nonneg (getVoltageMag_nonneg _ _ _ _) hv.le),
    min_le_left _ _⟩

/-- Witness for C8 at the concrete record `pZero` (positive bus voltage and
utilization ratio). -/
theorem claim_C8_voltage_index_clamped_witness :
    (0 : ℝ) < pZero.vdc ∧ (0 : ℝ) < pZero.voltageUtilization ∧
    List.Forall (fun pt => 0 ≤ pt.voltageIndex ∧ pt.voltageIndex ≤ 1)
      (calculateMotorCharacteristics pZero).points :=
  ⟨by norm_num [pZero], by norm_num [pZero],
    claim_C8_voltage_index_clamped pZero (by norm_num [pZero]) (by norm_num [pZero])⟩

/-! ### Claim C1: base-speed recording -/

theorem maxPower_update_baseSpeed (st1 : SweepState) (pw : ℝ) :
    (if st1.maxPower < pw then { st1 with maxPower := pw } else st1).baseSpeed
        = st1.baseSpeed
    ∧ (if st1.maxPower < pw then { st1 with maxPower := pw } else st1).baseSpeedFound
        = st1.baseSpeedFound := by
  split
  · exact ⟨rfl, rfl⟩
  · exact ⟨rfl, rfl⟩

/-- Once the base speed has been recorded it is never modified again. -/
theorem sweepAux_found_frozen (mp : MotorParams) (vLim : ℝ) (step : ℕ) :
    ∀ (fuel rpm : ℕ) (st : SweepState), st.baseSpeedFound = true →
      (sweepAux mp vLim step fuel rpm st).2.baseSpeed = st.baseSpeed
      ∧ (sweepAux mp vLim step fuel rpm st).2.baseSpeedFound = true := by
  intro fuel
  induction fuel with
  | zero => intro rpm st hf; exact ⟨rfl, hf⟩
  | succ n ih =>
    intro rpm st hf
    rw [sweepAux]
    by_cases hg : (rpm : ℝ) ≤ mp.maxSpeed
    · rw [if_pos hg]
      dsimp only
      have hst1 : (if getVoltageMag mp (omegaE mp rpm) (id_base mp) (iq_base mp) ≤ vLim
          then st else if st.baseSpeedFound then st
          else { st with baseSpeed := rpm - step, baseSpeedFound := true }) = st := by
        by_cases hm : getVoltageMag mp (omegaE mp rpm) (id_base mp) (iq_base mp) ≤ vLim
        · rw [if_pos hm]
        · rw [if_neg hm, if_pos hf]
      rw [hst1]
      have h2 := maxPower_update_baseSpeed st (mkPoint mp vLim rpm).power
      by_cases hb : 100 < rpm ∧ (mkPoint mp vLim rpm).torque < 0.01
      · rw [if_pos hb]
        exact ⟨h2.1, h2.2.trans hf⟩
      · rw [if_neg hb]
        dsimp only
        have h3 := ih (rpm + step)
          (if st.maxPower < (mkPoint mp vLim rpm).power
            then { st with maxPower := (mkPoint mp vLim rpm).power } else st)
          (h2.2.trans hf)
        exact ⟨h3.1.trans h2.1, h3.2⟩
    · rw [if_neg hg]
      exact ⟨rfl, hf⟩

/-- The sweep records `baseSpeed = r - step` at the first produced point `r`
whose base-point voltage exceeds the limit, and leaves the accumulator
untouched when no produced point violates the limit. -/
theorem sweepAux_baseSpeed_spec (mp : MotorParams) (vLim : ℝ) (step : ℕ) :
    ∀ (fuel rpm : ℕ) (st : SweepState), st.baseSpeedFound = false →
      (List.Forall
          (fun pt => getVoltageMag mp (omegaE mp pt.speedRPM) (id_base mp) (iq_base mp) ≤ vLim)
          (sweepAux mp vLim step fuel rpm st).1 →
        (sweepAux mp vLim step fuel rpm st).2.baseSpeed = st.baseSpeed
        ∧ (sweepAux mp vLim step fuel rpm st).2.baseSpeedFound = false)
      ∧ (∀ (l : List SimulationPoint) (pt : SimulationPoint) (rest : List SimulationPoint),
          (sweepAux mp vLim step fuel rpm st).1 = l ++ pt :: rest →
          List.Forall
            (fun q => getVoltageMag mp (omegaE mp q.speedRPM) (id_base mp) (iq_base mp) ≤ vLim)
            l →
          ¬ getVoltageMag mp (omegaE mp pt.speedRPM) (id_base mp) (iq_base mp) ≤ vLim →
          (sweepAux mp vLim step fuel rpm st).2.baseSpeed = pt.speedRPM - step) := by
  intro fuel
  induction fuel with
  | zero =>
    intro rpm st hf
    refine ⟨fun _ => ⟨rfl, hf⟩, fun l pt rest heq _ _ => ?_⟩
    exact absurd heq (by simp [sweepAux])
  | succ n ih =>
    intro rpm st hf
    rw [sweepAux]
    by_cases hg : (rpm : ℝ) ≤ mp.maxSpeed
    · rw [if_pos hg]
      dsimp only
      by_cases hm : getVoltageMag mp (omegaE mp rpm) (id_base mp) (iq_base mp) ≤ vLim
      · -- Region 1 at this speed: the accumulator passes through unchanged.
        rw [if_pos hm]
        have h2 := maxPower_update_baseSpeed st (mkPoint mp vLim rpm).power
        by_cases hb : 100 < rpm ∧ (mkPoint mp vLim rpm).torque < 0.01
        · rw [if_pos hb]
          refine ⟨fun _ => ⟨h2.1, h2.2.trans hf⟩, fun l pt rest heq hl hvio => ?_⟩
          rcases l with _ | ⟨a, l'⟩
          · rw [List.nil_append] at heq
            have hpt : pt = mkPoint mp vLim rpm := (List.cons_eq_cons.mp heq.symm).1
            rw [hpt, mkPoint_speedRPM] at hvio
            exact absurd hm hvio
          · have := (List.cons_eq_cons.mp heq.symm).2
            exact absurd this.symm (by simp)
        · rw [if_neg hb]
          dsimp only
          set st2 := if st.maxPower < (mkPoint mp vLim rpm).power
            then { st with maxPower := (mkPoint mp vLim rpm).power } else st with hst2
          have hst2f : st2.baseSpeedFound = false := h2.2.trans hf
          have hih := ih (rpm + step) st2 hst2f
          refine ⟨fun hall => ?_, fun l pt rest heq hl hvio => ?_⟩
          · have htail := ((List.forall_cons _ _ _).mp hall).2
            have h3 := hih.1 htail
            exact ⟨h3.1.trans h2.1, h3.2⟩
          · rcases l with _ | ⟨a, l'⟩
            · rw [List.nil_append] at heq
              have hpt : pt = mkPoint mp vLim rpm := (List.cons_eq_cons.mp heq.symm).1
              rw [hpt, mkPoint_speedRPM] at hvio
              exact absurd hm hvio
            · rw [List.cons_append] at heq
              have hc := List.cons_eq_cons.mp heq
              have htail := ((List.forall_cons _ _ _).mp hl).2
              exact hih.2 l' pt rest hc.2 htail hvio
      · -- First violation: the accumulator records rpm - step and freezes.
        have hnf : ¬(st.baseSpeedFound = true) := by
          rw [hf]
          exact Bool.false_ne_true
        rw [if_neg hm, if_neg hnf]
        have h2 := maxPower_update_baseSpeed
          { st with baseSpeed := rpm - step, baseSpeedFound := true }
          (mkPoint mp vLim rpm).power
        by_cases hb : 100 < rpm ∧ (mkPoint mp vLim rpm).torque < 0.01
        · rw [if_pos hb]
          refine ⟨fun hall => ?_, fun l pt rest heq hl hvio => ?_⟩
          · have hhead := ((List.forall_cons _ _ _).mp hall).1
            rw [mkPoint_speedRPM] at hhead
            exact absurd hhead hm
          · rcases l with _ | ⟨a, l'⟩
            · rw [List.nil_append] at heq
              have hpt : pt = mkPoint mp vLim rpm := (List.cons_eq_cons.mp heq.symm).1
              rw [hpt, mkPoint_speedRPM]
              exact h2.1
            · have := (List.cons_eq_cons.mp heq.symm).2
              exact absurd this.symm (by simp)
        · rw [if_neg hb]
          dsimp only
          have hfro := sweepAux_found_frozen mp vLim step n (rpm + step) _ h2.2
          refine ⟨fun hall => ?_, fun l pt rest heq hl hvio => ?_⟩
          · have hhead := ((List.forall_cons _ _ _).mp hall).1
            rw [mkPoint_speedRPM] at hhead
            exact absurd hhead hm
          · rcases l with _ | ⟨a, l'⟩
            · rw [List.nil_append] at heq
              have hpt : pt = mkPoint mp vLim rpm := (List.cons_eq_cons.mp heq.symm).1
              rw [hpt, mkPoint_speedRPM]
              exact hfro.1.trans h2.1
            · rw [List.cons_append] at heq
              have hc := List.cons_eq_cons.mp heq
              have hhead := ((List.forall_cons _ _ _).mp hl).1
              rw [← hc.1, mkPoint_speedRPM] at hhead
              exact absurd hhead hm
    · rw [if_neg hg]
      refine ⟨fun _ => ⟨rfl, hf⟩, fun l pt rest heq _ _ => ?_⟩
      exact absurd heq (by simp)

/-- C1: the result's `baseSpeed` is 0 when no swept speed ever drives the
base operating point past the voltage limit, and otherwise equals the first
violating swept speed minus `stepRPM` (the subtraction is the truncated
natural subtraction, i.e. `max(0, r - stepRPM)`), recorded at the first
occurrence only. -/
theorem claim_C1_base_speed (mp : MotorParams) :
    (List.Forall (fun pt => ¬ baseViolation mp pt.speedRPM)
        (calculateMotorCharacteristics mp).points →
      (calculateMotorCharacteristics mp).baseSpeed = 0)
    ∧ (∀ (l : List SimulationPoint) (pt : SimulationPoint)
          (rest : List SimulationPoint),
        (calculateMotorCharacteristics mp).points = l ++ pt :: rest →
        List.Forall (fun q => ¬ baseViolation mp q.speedRPM) l →
        baseViolation mp pt.speedRPM →
        (calculateMotorCharacteristics mp).baseSpeed
          = pt.speedRPM - stepRPM mp) := by
  have hpts : (calculateMotorCharacteristics mp).points
      = (sweepAux mp (vLimOf mp) (stepRPM mp)
          (⌊mp.maxSpeed⌋.toNat + 1) 0 ⟨0, false, 0⟩).1 := rfl
  have hbs : (calculateMotorCharacteristics mp).baseSpeed
      = (sweepAux mp (vLimOf mp) (stepRPM mp)
          (⌊mp.maxSpeed⌋.toNat + 1) 0 ⟨0, false, 0⟩).2.baseSpeed := rfl
  have hspec := sweepAux_baseSpeed_spec mp (vLimOf mp) (stepRPM mp)
    (⌊mp.maxSpeed⌋.toNat + 1) 0 ⟨0, false, 0⟩ rfl
  constructor
  · intro hall
    rw [hbs]
    refine (hspec.1 ?_).1
    rw [hpts] at hall
    exact hall.imp fun pt h => not_lt.mp h
  · intro l pt rest heq hl hvio
    rw [hbs]
    refine hspec.2 l pt rest ?_ ?_ ?_
    · rw [← hpts]; exact heq
    · exact hl.imp fun q h => not_lt.mp h
    · exact not_le.mpr hvio

/-- Witness for C1 at the concrete record `pZero` (no hypotheses beyond the
parameter record itself). -/
theorem claim_C1_base_speed_witness :
    (List.Forall (fun pt => ¬ baseViolation pZero pt.speedRPM)
        (calculateMotorCharacteristics pZero).points →
      (calculateMotorCharacteristics pZero).baseSpeed = 0)
    ∧ (∀ (l : List SimulationPoint) (pt : SimulationPoint)
          (rest : List SimulationPoint),
        (calculateMotorCharacteristics pZero).points = l ++ pt :: rest →
        List.Forall (fun q => ¬ baseViolation pZero q.speedRPM) l →
        baseViolation pZero pt.speedRPM →
        (calculateMotorCharacteristics pZero).baseSpeed
          = pt.speedRPM - stepRPM pZero) :=
  claim_C1_base_speed pZero

/-! ### Claim C2: flux-weakening collapse fallback -/

/-- If no bisection midpoint ever satisfies the voltage bound, the
flux-weakening search leaves its `foundSolution` flag unchanged. -/
theorem fwSearchGo_never_found (mp : MotorParams) (vLim omega : ℝ)
    (H : ∀ mid : ℝ, ¬ getVoltageMag mp omega (-mp.imax * Real.sin mid)
      (mp.imax * Real.cos mid) ≤ vLim) :
    ∀ (n : ℕ) (low high optimalB : ℝ) (f : Bool),
      (fwSearchGo mp vLim omega n low high optimalB f).2 = f := by
  intro n
  induction n with
  | zero => intro low high optimalB f; rfl
  | succ m ih =>
    intro low high optimalB f
    rw [fwSearchGo]
    rw [if_neg (H ((low + high) / 2))]
    exact ih _ _ _ _

/-- C2: at a speed where the base point violates the voltage limit and the
20-iteration flux-weakening bisection finds no feasible midpoint, the
resulting operating point is the degenerate `id = 0`, `iq = 0` (zero torque,
zero voltage); the point is produced normally rather than any error. -/
theorem claim_C2_fw_collapse (mp : MotorParams) (rpm : ℕ)
    (hfw : mp.enableFluxWeakening = true)
    (hvio : ¬ getVoltageMag mp (omegaE mp rpm) (id_base mp) (iq_base mp) ≤ vLimOf mp)
    (hfail : (fwSearchGo mp (vLimOf mp) (omegaE mp rpm) 20 (betaStart mp)
        (Real.pi / 2) (Real.pi / 2) false).2 = false) :
    (mkPoint mp (vLimOf mp) rpm).id = 0 ∧ (mkPoint mp (vLimOf mp) rpm).iq = 0 := by
  rw [mkPoint_id, mkPoint_iq]
  unfold solvePoint
  rw [if_neg hvio]
  simp [hfw, hfail]

/-- Witness for C2: on `pCollapse` at 30 RPM the electrical speed is `pi`,
the voltage magnitude is `pi` at every candidate, the limit is 0, so the
search fails and the point collapses to zero current. -/
theorem claim_C2_fw_collapse_witness :
    (pCollapse.enableFluxWeakening = true
      ∧ ¬ getVoltageMag pCollapse (omegaE pCollapse 30) (id_base pCollapse)
          (iq_base pCollapse) ≤ vLimOf pCollapse
      ∧ (fwSearchGo pCollapse (vLimOf pCollapse) (omegaE pCollapse 30) 20
          (betaStart pCollapse) (Real.pi / 2) (Real.pi / 2) false).2 = false)
    ∧ ((mkPoint pCollapse (vLimOf pCollapse) 30).id = 0
      ∧ (mkPoint pCollapse (vLimOf pCollapse) 30).iq = 0) := by
  have homega : omegaE pCollapse 30 = Real.pi := by
    unfold omegaE pCollapse
    push_cast
    ring
  have hlim : vLimOf pCollapse = 0 := by
    unfold vLimOf pCollapse
    norm_num
  have hmag : ∀ cId cIq : ℝ,
      getVoltageMag pCollapse Real.pi cId cIq = Real.pi := by
    intro cId cIq
    have hrs : pCollapse.rs = 0 := rfl
    have hld : pCollapse.ld = 0 := rfl
    have hlq : pCollapse.lq = 0 := rfl
    have hps : pCollapse.psif = 1 := rfl
    unfold getVoltageMag
    rw [hrs, hld, hlq, hps]
    have h1 : (0 : ℝ) * cId - Real.pi * 0 * cIq = 0 := by ring
    have h2 : (0 : ℝ) * cIq + Real.pi * (0 * cId + 1) = Real.pi := by ring
    rw [h1, h2]
    simpa using Real.sqrt_mul_self Real.pi_pos.le
  have hvio : ¬ getVoltageMag pCollapse (omegaE pCollapse 30) (id_base pCollapse)
      (iq_base pCollapse) ≤ vLimOf pCollapse := by
    rw [homega, hmag, hlim]
    exact not_le.mpr Real.pi_pos
  have hfail : (fwSearchGo pCollapse (vLimOf pCollapse) (omegaE pCollapse 30) 20
      (betaStart pCollapse) (Real.pi / 2) (Real.pi / 2) false).2 = false := by
    refine fwSearchGo_never_found pCollapse (vLimOf pCollapse) (omegaE pCollapse 30)
      (fun mid => ?_) 20 _ _ _ _
    rw [homega, hmag, hlim]
    exact not_le.mpr Real.pi_pos
  exact ⟨⟨rfl, hvio, hfail⟩, claim_C2_fw_collapse pCollapse 30 rfl hvio hfail⟩

/-! ### Claim C3: the reported maximum torque is the base-point torque -/

theorem mtpaStep_inv (mp : MotorParams) (acc : ℝ × ℝ) (k : ℕ)
    (h : acc.1 = getTorque mp mp.imax acc.2 ∨ (acc.1 = 0 ∧ acc.2 = 0)) :
    (mtpaStep mp acc k).1 = getTorque mp mp.imax (mtpaStep mp acc k).2
    ∨ ((mtpaStep mp acc k).1 = 0 ∧ (mtpaStep mp acc k).2 = 0) := by
  unfold mtpaStep
  dsimp only
  split
  · left; rfl
  · exact h

theorem mtpaScanGo_inv (mp : MotorParams) :
    ∀ (n k : ℕ) (acc : ℝ × ℝ),
      (acc.1 = getTorque mp mp.imax acc.2 ∨ (acc.1 = 0 ∧ acc.2 = 0)) →
      ((mtpaScanGo mp n k acc).1 = getTorque mp mp.imax (mtpaScanGo mp n k acc).2
        ∨ ((mtpaScanGo mp n k acc).1 = 0 ∧ (mtpaScanGo mp n k acc).2 = 0)) := by
  intro n
  induction n with
  | zero => intro k acc h; exact h
  | succ m ih =>
    intro k acc h
    rw [mtpaScanGo]
    exact ih (k + 1) _ (mtpaStep_inv mp acc k h)

theorem mtpaStep_mono (mp : MotorParams) (acc : ℝ × ℝ) (k : ℕ) :
    acc.1 ≤ (mtpaStep mp acc k).1 := by
  unfold mtpaStep
  dsimp only
  split
  · next h => exact le_of_lt h
  · exact le_refl _

theorem mtpaScanGo_mono (mp : MotorParams) :
    ∀ (n k : ℕ) (acc : ℝ × ℝ), acc.1 ≤ (mtpaScanGo mp n k acc).1 := by
  intro n
  induction n with
  | zero => intro k acc; exact le_refl _
  | succ m ih =>
    intro k acc
    rw [mtpaScanGo]
    exact le_trans (mtpaStep_mono mp acc k) (ih (k + 1) _)

theorem mtpaStep_zero_start (mp : MotorParams) :
    getTorque mp mp.imax 0 ≤ (mtpaStep mp (0, 0) 0).1 := by
  have hrad : ((0 : ℕ) : ℝ) * 0.5 * Real.pi / 180 = 0 := by
    push_cast
    ring
  unfold mtpaStep
  dsimp only
  rw [hrad]
  split
  · exact le_refl _
  · next h => exact le_of_not_lt h

/-- The reported `maxT_static` is the torque of the retained base angle
(under the data-model sign conditions on pole pairs, flux and current). -/
theorem maxTStatic_eq (mp : MotorParams) (hp : 0 ≤ mp.p)
    (hpsif : 0 ≤ mp.psif) (himax : 0 ≤ mp.imax) :
    maxTStatic mp = getTorque mp mp.imax (betaStart mp) := by
  have ht0 : 0 ≤ getTorque mp mp.imax 0 := by
    unfold getTorque
    dsimp only
    rw [Real.sin_zero, Real.cos_zero]
    have h15 : (0 : ℝ) ≤ 1.5 := by norm_num
    calc (0 : ℝ) = 1.5 * mp.p * (mp.psif * (mp.imax * 1) +
        (mp.ld - mp.lq) * (-mp.imax * 0) * (mp.imax * 1)) -
        1.5 * mp.p * (mp.psif * mp.imax) := by ring
    _ ≤ 1.5 * mp.p * (mp.psif * (mp.imax * 1) +
        (mp.ld - mp.lq) * (-mp.imax * 0) * (mp.imax * 1)) := by
        have : 0 ≤ 1.5 * mp.p * (mp.psif * mp.imax) :=
          mul_nonneg (mul_nonneg h15 hp) (mul_nonneg hpsif himax)
        linarith
  unfold maxTStatic betaStart baseSearch
  cases hcs : mp.controlStrategy
  · rw [show (181 : ℕ) = 180 + 1 from rfl, mtpaScanGo]
    have hInv := mtpaScanGo_inv mp 180 1 (mtpaStep mp (0, 0) 0)
      (mtpaStep_inv mp (0, 0) 0 (Or.inr ⟨rfl, rfl⟩))
    rcases hInv with hInv | hInv
    · exact hInv
    · rw [hInv.1, hInv.2]
      have hchain := le_trans (mtpaStep_zero_start mp)
        (mtpaScanGo_mono mp 180 1 (mtpaStep mp (0, 0) 0))
      rw [hInv.1] at hchain
      linarith
  · rfl

theorem getTorque_of_zero_mag (mp : MotorParams) (rad : ℝ) :
    getTorque mp 0 rad = 0 := by
  unfold getTorque
  dsimp only
  ring

theorem mtpaScanGo_zero_mag (mp : MotorParams) (himax : mp.imax = 0) :
    ∀ (n k : ℕ), mtpaScanGo mp n k (0, 0) = (0, 0) := by
  intro n
  induction n with
  | zero => intro k; rfl
  | succ m ih =>
    intro k
    rw [mtpaScanGo]
    have hstep : mtpaStep mp (0, 0) k = (0, 0) := by
      unfold mtpaStep
      dsimp only
      rw [himax, getTorque_of_zero_mag]
      rw [if_neg (lt_irrefl 0)]
    rw [hstep]
    exact ih (k + 1)

/-- C3: the result's `maxTorque` equals
`1.5 * p * (psif * iq_base + (ld - lq) * id_base * iq_base)` at the base
operating point (`beta = 0` under `Id=0`, the retained scan angle under
MTPA), independent of the sweep; and it degenerates to zero torque at
`beta = 0` when `imax = 0`. -/
theorem claim_C3_max_torque (mp : MotorParams) (hp : 0 ≤ mp.p)
    (hpsif : 0 ≤ mp.psif) (himax : 0 ≤ mp.imax) :
    (calculateMotorCharacteristics mp).maxTorque
      = 1.5 * mp.p * (mp.psif * iq_base mp + (mp.ld - mp.lq) * id_base mp * iq_base mp)
    ∧ (mp.imax = 0 →
        (calculateMotorCharacteristics mp).maxTorque = 0 ∧ betaStart mp = 0) := by
  have hmt : (calculateMotorCharacteristics mp).maxTorque = maxTStatic mp := rfl
  have hform : getTorque mp mp.imax (betaStart mp)
      = 1.5 * mp.p * (mp.psif * iq_base mp +
          (mp.ld - mp.lq) * id_base mp * iq_base mp) := rfl
  refine ⟨by rw [hmt, maxTStatic_eq mp hp hpsif himax, hform], fun h0 => ?_⟩
  have hbeta : betaStart mp = 0 ∧ maxTStatic mp = getTorque mp mp.imax 0 := by
    unfold betaStart maxTStatic baseSearch
    cases hcs : mp.controlStrategy
    · rw [mtpaScanGo_zero_mag mp h0 181 0]
      exact ⟨rfl, by rw [h0, getTorque_of_zero_mag]⟩
    · exact ⟨rfl, rfl⟩
  refine ⟨?_, hbeta.1⟩
  rw [hmt, hbeta.2, h0, getTorque_of_zero_mag]

/-- Witness for C3 at the concrete record `pZero`. -/
theorem claim_C3_max_torque_witness :
    ((0 : ℝ) ≤ pZero.p ∧ (0 : ℝ) ≤ pZero.psif ∧ (0 : ℝ) ≤ pZero.imax) ∧
    ((calculateMotorCharacteristics pZero).maxTorque
      = 1.5 * pZero.p * (pZero.psif * iq_base pZero +
          (pZero.ld - pZero.lq) * id_base pZero * iq_base pZero)
    ∧ (pZero.imax = 0 →
        (calculateMotorCharacteristics pZero).maxTorque = 0 ∧ betaStart pZero = 0)) :=
  ⟨⟨by norm_num [pZero], by norm_num [pZero], by norm_num [pZero]⟩,
    claim_C3_max_torque pZero (by norm_num [pZero]) (by norm_num [pZero])
      (by norm_num [pZero])⟩

/-! ### Claims C4, C5: the theoretical max-speed estimator -/

/-- C4: with flux weakening enabled, the estimator returns the sentinel 20000
when `imax ≥ psif / ld`; also 20000 when `imax < psif / ld` but
`|psif - ld * imax| < 1e-9`; and otherwise the residual-flux-limited speed
`ceil(((vLim / |psif - ld * imax|) * 60 / (2 * pi * p)) / 100) * 100`. -/
theorem claim_C4_estimator_fw (mp : MotorParams)
    (hfw : mp.enableFluxWeakening = true) :
    (mp.psif / mp.ld ≤ mp.imax → calculateTheoreticalMaxSpeed mp = 20000)
    ∧ (mp.imax < mp.psif / mp.ld → |mp.psif - mp.ld * mp.imax| < 1e-9 →
        calculateTheoreticalMaxSpeed mp = 20000)
    ∧ (mp.imax < mp.psif / mp.ld → 1e-9 ≤ |mp.psif - mp.ld * mp.imax| →
        calculateTheoreticalMaxSpeed mp =
          ((⌈mp.vdc / Real.sqrt 3 * mp.voltageUtilization / |mp.psif - mp.ld * mp.imax|
              * 60 / (2 * Real.pi * mp.p) / 100⌉ * 100 : ℤ) : ℝ)) := by
  unfold calculateTheoreticalMaxSpeed
  rw [hfw]
  simp only [Bool.true_eq_false, if_false]
  refine ⟨fun h => ?_, fun h h9 => ?_, fun h h9 => ?_⟩
  · rw [if_pos (le_of_le_of_eq h rfl)]
  · rw [if_neg (not_le.mpr h), if_pos h9]
  · rw [if_neg (not_le.mpr h), if_neg (not_lt.mpr h9)]

/-- Witness for C4 at the concrete record `pZeroFW`, which has flux
weakening enabled. -/
theorem claim_C4_estimator_fw_witness :
    pZeroFW.enableFluxWeakening = true ∧
    ((pZeroFW.psif / pZeroFW.ld ≤ pZeroFW.imax →
        calculateTheoreticalMaxSpeed pZeroFW = 20000)
    ∧ (pZeroFW.imax < pZeroFW.psif / pZeroFW.ld →
        |pZeroFW.psif - pZeroFW.ld * pZeroFW.imax| < 1e-9 →
        calculateTheoreticalMaxSpeed pZeroFW = 20000)
    ∧ (pZeroFW.imax < pZeroFW.psif / pZeroFW.ld →
        1e-9 ≤ |pZeroFW.psif - pZeroFW.ld * pZeroFW.imax| →
        calculateTheoreticalMaxSpeed pZeroFW =
          ((⌈pZeroFW.vdc / Real.sqrt 3 * pZeroFW.voltageUtilization /
              |pZeroFW.psif - pZeroFW.ld * pZeroFW.imax|
              * 60 / (2 * Real.pi * pZeroFW.p) / 100⌉ * 100 : ℤ) : ℝ))) :=
  ⟨rfl, claim_C4_estimator_fw pZeroFW rfl⟩

/-- C5: with flux weakening disabled, the estimator returns the no-load
back-EMF-limited speed converted to RPM and rounded up to the nearest 100,
and that value lies within one rounding unit (100 RPM) above the raw
converted speed. -/
theorem claim_C5_estimator_nofw (mp : MotorParams)
    (hfw : mp.enableFluxWeakening = false) :
    calculateTheoreticalMaxSpeed mp =
      ((⌈mp.vdc / Real.sqrt 3 * mp.voltageUtilization / mp.psif
          * 60 / (2 * Real.pi * mp.p) / 100⌉ * 100 : ℤ) : ℝ)
    ∧ mp.vdc / Real.sqrt 3 * mp.voltageUtilization / mp.psif
        * 60 / (2 * Real.pi * mp.p) ≤ calculateTheoreticalMaxSpeed mp
    ∧ calculateTheoreticalMaxSpeed mp <
        mp.vdc / Real.sqrt 3 * mp.voltageUtilization / mp.psif
          * 60 / (2 * Real.pi * mp.p) + 100 := by
  have heq : calculateTheoreticalMaxSpeed mp =
      ((⌈mp.vdc / Real.sqrt 3 * mp.voltageUtilization / mp.psif
          * 60 / (2 * Real.pi * mp.p) / 100⌉ * 100 : ℤ) : ℝ) := by
    unfold calculateTheoreticalMaxSpeed
    rw [hfw]
    simp only [if_true]
  set x : ℝ := mp.vdc / Real.sqrt 3 * mp.voltageUtilization / mp.psif
      * 60 / (2 * Real.pi * mp.p) with hx
  refine ⟨heq, ?_, ?_⟩
  · rw [heq]
    push_cast
    have h1 : x / 100 ≤ (⌈x / 100⌉ : ℝ) := Int.le_ceil _
    nlinarith [h1]
  · rw [heq]
    push_cast
    have h2 : (⌈x / 100⌉ : ℝ) < x / 100 + 1 := Int.ceil_lt_add_one _
    nlinarith [h2]

/-- Witness for C5 at the concrete record `pZero`. -/
theorem claim_C5_estimator_nofw_witness :
    pZero.enableFluxWeakening = false ∧
    (calculateTheoreticalMaxSpeed pZero =
      ((⌈pZero.vdc / Real.sqrt 3 * pZero.voltageUtilization / pZero.psif
          * 60 / (2 * Real.pi * pZero.p) / 100⌉ * 100 : ℤ) : ℝ)
    ∧ pZero.vdc / Real.sqrt 3 * pZero.voltageUtilization / pZero.psif
        * 60 / (2 * Real.pi * pZero.p) ≤ calculateTheoreticalMaxSpeed pZero
    ∧ calculateTheoreticalMaxSpeed pZero <
        pZero.vdc / Real.sqrt 3 * pZero.voltageUtilization / pZero.psif
          * 60 / (2 * Real.pi * pZero.p) + 100) :=
  ⟨rfl, claim_C5_estimator_nofw pZero rfl⟩

/-- With a nonnegative sweep ceiling the result starts with the point for
speed 0. -/
theorem points_head_cons (mp : MotorParams) (h : 0 ≤ mp.maxSpeed) :
    ∃ l, (calculateMotorCharacteristics mp).points
      = mkPoint mp (vLimOf mp) 0 :: l := by
  have hpts : (calculateMotorCharacteristics mp).points
      = (sweepAux mp (vLimOf mp) (stepRPM mp)
          (⌊mp.maxSpeed⌋.toNat + 1) 0 ⟨0, false, 0⟩).1 := rfl
  rw [hpts, sweepAux]
  rw [if_pos (by simpa using h)]
  dsimp only
  rw [if_neg (fun hc => absurd hc.1 (by omega))]
  exact ⟨_, rfl⟩

/-! ### Claim C9: d-axis current sign under the zero-d-current strategy -/

theorem betaStart_idZero (mp : MotorParams)
    (hcs : mp.controlStrategy = ControlStrategy.idZero) : betaStart mp = 0 := by
  unfold betaStart baseSearch
  rw [hcs]

theorem id_base_idZero (mp : MotorParams)
    (hcs : mp.controlStrategy = ControlStrategy.idZero) : id_base mp = 0 := by
  unfold id_base
  rw [betaStart_idZero mp hcs, Real.sin_zero, mul_zero]

theorem localAngle_idZero (mp : MotorParams)
    (hcs : mp.controlStrategy = ControlStrategy.idZero) (midI : ℝ) :
    localAngle mp midI = 0 := by
  unfold localAngle
  rw [hcs]

theorem magSearchGo_idZero (mp : MotorParams) (vLim omega : ℝ)
    (hcs : mp.controlStrategy = ControlStrategy.idZero) :
    ∀ (n : ℕ) (lowI highI : ℝ) (v : ℝ × ℝ × ℝ), v.1 = 0 → v.2.2 = 0 →
      (magSearchGo mp vLim omega n lowI highI v).1 = 0
      ∧ (magSearchGo mp vLim omega n lowI highI v).2.2 = 0 := by
  intro n
  induction n with
  | zero => intro lowI highI v h1 h2; exact ⟨h1, h2⟩
  | succ m ih =>
    intro lowI highI v h1 h2
    rw [magSearchGo]
    split
    · refine ih _ _ _ ?_ ?_
      · dsimp only
        rw [localAngle_idZero mp hcs, Real.sin_zero, mul_zero]
      · dsimp only
        rw [localAngle_idZero mp hcs]
    · exact ih _ _ _ h1 h2

/-- In Region 1 the solver keeps the base operating point verbatim. -/
theorem solvePoint_region1 (mp : MotorParams) (vLim omega : ℝ)
    (hm : getVoltageMag mp omega (id_base mp) (iq_base mp) ≤ vLim) :
    solvePoint mp vLim omega = (id_base mp, iq_base mp, betaStart mp) := by
  unfold solvePoint
  rw [if_pos hm]

/-- With flux weakening disabled, the zero-d-current strategy always yields a
zero d-axis current and zero current angle, in both regions. -/
theorem solvePoint_idZero_nofw (mp : MotorParams) (vLim omega : ℝ)
    (hcs : mp.controlStrategy = ControlStrategy.idZero)
    (hfw : mp.enableFluxWeakening = false) :
    (solvePoint mp vLim omega).1 = 0 ∧ (solvePoint mp vLim omega).2.2 = 0 := by
  by_cases hm : getVoltageMag mp omega (id_base mp) (iq_base mp) ≤ vLim
  · rw [solvePoint_region1 mp vLim omega hm]
    exact ⟨id_base_idZero mp hcs, betaStart_idZero mp hcs⟩
  · unfold solvePoint
    rw [if_neg hm]
    have hnf : ¬(mp.enableFluxWeakening = true) := by
      rw [hfw]
      exact Bool.false_ne_true
    rw [if_neg hnf]
    exact magSearchGo_idZero mp vLim omega hcs 15 0 mp.imax (0, 0, 0) rfl rfl

/-- At zero electrical speed the voltage magnitude of a full-magnitude
current at any angle is the resistive drop `|rs * imax|`, independent of the
angle (since `sin^2 + cos^2 = 1`). -/
theorem getVoltageMag_angle_const_at_zero (mp : MotorParams) (theta : ℝ) :
    getVoltageMag mp 0 (-mp.imax * Real.sin theta) (mp.imax * Real.cos theta)
      = Real.sqrt (mp.rs * mp.rs * (mp.imax * mp.imax)) := by
  unfold getVoltageMag
  dsimp only
  congr 1
  have hsc := Real.sin_sq_add_cos_sq theta
  linear_combination (mp.rs * mp.rs * mp.imax * mp.imax) * hsc

theorem getVoltageMag_base_at_zero (mp : MotorParams) :
    getVoltageMag mp 0 (id_base mp) (iq_base mp)
      = Real.sqrt (mp.rs * mp.rs * (mp.imax * mp.imax)) :=
  getVoltageMag_angle_const_at_zero mp (betaStart mp)

theorem omegaE_zero (mp : MotorParams) : omegaE mp 0 = 0 := by
  unfold omegaE
  push_cast
  ring

/-- At the swept speed 0 the zero-d-current strategy produces `id = 0`:
either Region 1 applies (`id = id_base = 0`), or the base point already
violates the limit at standstill, in which case every flux-weakening
candidate has the same resistive voltage magnitude as the base point and the
search falls back to the zero-current point. -/
theorem solvePoint_idZero_id_at_standstill (mp : MotorParams) (vLim : ℝ)
    (hcs : mp.controlStrategy = ControlStrategy.idZero) :
    (solvePoint mp vLim (omegaE mp 0)).1 = 0 := by
  by_cases hm : getVoltageMag mp (omegaE mp 0) (id_base mp) (iq_base mp) ≤ vLim
  · rw [solvePoint_region1 mp vLim (omegaE mp 0) hm]
    exact id_base_idZero mp hcs
  · unfold solvePoint
    rw [if_neg hm]
    cases hfw : mp.enableFluxWeakening
    · rw [if_neg Bool.false_ne_true]
      exact (magSearchGo_idZero mp vLim (omegaE mp 0) hcs 15 0 mp.imax (0, 0, 0) rfl rfl).1
    · rw [if_pos rfl]
      have hm0 : ¬ Real.sqrt (mp.rs * mp.rs * (mp.imax * mp.imax)) ≤ vLim := by
        intro hc
        apply hm
        rw [omegaE_zero, getVoltageMag_base_at_zero]
        exact hc
      have H : ∀ mid : ℝ, ¬ getVoltageMag mp (omegaE mp 0)
          (-mp.imax * Real.sin mid) (mp.imax * Real.cos mid) ≤ vLim := by
        intro mid
        rw [omegaE_zero, getVoltageMag_angle_const_at_zero]
        exact hm0
      have hff := fwSearchGo_never_found mp vLim (omegaE mp 0) H 20
        (betaStart mp) (Real.pi / 2) (Real.pi / 2) false
      simp [hff]

/-- Under the zero-d-current strategy a strictly negative d-axis current can
only come from the flux-weakening branch. -/
theorem solvePoint_id_neg_imp_fw (mp : MotorParams) (vLim omega : ℝ)
    (hcs : mp.controlStrategy = ControlStrategy.idZero)
    (h : (solvePoint mp vLim omega).1 < 0) : mp.enableFluxWeakening = true := by
  cases hfw : mp.enableFluxWeakening
  · rw [(solvePoint_idZero_nofw mp vLim omega hcs hfw).1] at h
    exact absurd h (lt_irrefl 0)
  · rfl

/-- Found-phase invariant for the amended C9: after the base speed has been
recorded and every later swept speed strictly exceeds it, strictly negative
`id` implies flux weakening, and no later point lies at or below the
recorded base speed. -/
theorem sweepAux_idZero_found_phase (mp : MotorParams) (vLim : ℝ) (step : ℕ)
    (hcs : mp.controlStrategy = ControlStrategy.idZero) :
    ∀ (fuel rpm : ℕ) (st : SweepState), st.baseSpeedFound = true →
      st.baseSpeed < rpm →
      List.Forall (fun pt =>
        (pt.id < 0 → mp.enableFluxWeakening = true ∧ st.baseSpeed < pt.speedRPM)
        ∧ (pt.speedRPM ≤ st.baseSpeed → pt.id = 0))
        (sweepAux mp vLim step fuel rpm st).1 := by
  intro fuel
  induction fuel with
  | zero => intro rpm st _ _; simp [sweepAux, List.Forall]
  | succ n ih =>
    intro rpm st hf hlt
    rw [sweepAux]
    by_cases hg : (rpm : ℝ) ≤ mp.maxSpeed
    · rw [if_pos hg]
      dsimp only
      have hst1 : (if getVoltageMag mp (omegaE mp rpm) (id_base mp) (iq_base mp) ≤ vLim
          then st else if st.baseSpeedFound then st
          else { st with baseSpeed := rpm - step, baseSpeedFound := true }) = st := by
        by_cases hm : getVoltageMag mp (omegaE mp rpm) (id_base mp) (iq_base mp) ≤ vLim
        · rw [if_pos hm]
        · rw [if_neg hm, if_pos hf]
      rw [hst1]
      have h2 := maxPower_update_baseSpeed st (mkPoint mp vLim rpm).power
      have hhead : ((mkPoint mp vLim rpm).id < 0 →
            mp.enableFluxWeakening = true ∧ st.baseSpeed < (mkPoint mp vLim rpm).speedRPM)
          ∧ ((mkPoint mp vLim rpm).speedRPM ≤ st.baseSpeed →
            (mkPoint mp vLim rpm).id = 0) := by
        constructor
        · intro hneg
          rw [mkPoint_id] at hneg
          refine ⟨solvePoint_id_neg_imp_fw mp vLim (omegaE mp rpm) hcs hneg, ?_⟩
          rw [mkPoint_speedRPM]
          exact hlt
        · intro hle
          rw [mkPoint_speedRPM] at hle
          exact absurd hlt (not_lt.mpr hle)
      by_cases hb : 100 < rpm ∧ (mkPoint mp vLim rpm).torque < 0.01
      · rw [if_pos hb]
        exact (List.forall_cons _ _ _).mpr ⟨hhead, by simp [List.Forall]⟩
      · rw [if_neg hb]
        dsimp only
        refine (List.forall_cons _ _ _).mpr ⟨hhead, ?_⟩
        have hih := ih (rpm + step) _ (h2.2.trans hf)
          (by rw [h2.1]; exact lt_of_lt_of_le hlt (Nat.le_add_right rpm step))
        simpa only [h2.1] using hih
    · rw [if_neg hg]
      simp [List.Forall]

/-- Main induction for the amended C9 (accumulator not yet recorded). -/
theorem sweepAux_idZero_main (mp : MotorParams) (vLim : ℝ) (step : ℕ)
    (hcs : mp.controlStrategy = ControlStrategy.idZero) (hstep : 0 < step) :
    ∀ (fuel rpm : ℕ) (st : SweepState), st.baseSpeedFound = false →
      List.Forall (fun pt =>
        (pt.id < 0 → mp.enableFluxWeakening = true
          ∧ (sweepAux mp vLim step fuel rpm st).2.baseSpeed < pt.speedRPM)
        ∧ (pt.speedRPM ≤ (sweepAux mp vLim step fuel rpm st).2.baseSpeed →
            pt.id = 0))
        (sweepAux mp vLim step fuel rpm st).1 := by
  intro fuel
  induction fuel with
  | zero => intro rpm st _; simp [sweepAux, List.Forall]
  | succ n ih =>
    intro rpm st hf
    rw [sweepAux]
    by_cases hg : (rpm : ℝ) ≤ mp.maxSpeed
    · rw [if_pos hg]
      dsimp only
      by_cases hm : getVoltageMag mp (omegaE mp rpm) (id_base mp) (iq_base mp) ≤ vLim
      · -- Region 1 point: id = id_base = 0 under the zero-d strategy.
        rw [if_pos hm]
        have h2 := maxPower_update_baseSpeed st (mkPoint mp vLim rpm).power
        have hid : (mkPoint mp vLim rpm).id = 0 := by
          rw [mkPoint_id, solvePoint_region1 mp vLim (omegaE mp rpm) hm]
          exact id_base_idZero mp hcs
        by_cases hb : 100 < rpm ∧ (mkPoint mp vLim rpm).torque < 0.01
        · rw [if_pos hb]
          refine (List.forall_cons _ _ _).mpr ⟨⟨?_, fun _ => hid⟩, by simp [List.Forall]⟩
          intro hneg
          exact absurd (hid ▸ hneg) (lt_irrefl 0)
        · rw [if_neg hb]
          dsimp only
          refine (List.forall_cons _ _ _).mpr ⟨⟨?_, fun _ => hid⟩, ?_⟩
          · intro hneg
            exact absurd (hid ▸ hneg) (lt_irrefl 0)
          · exact ih (rpm + step) _ (h2.2.trans hf)
      · -- First violation: baseSpeed is recorded as rpm - step here.
        have hnf : ¬(st.baseSpeedFound = true) := by
          rw [hf]
          exact Bool.false_ne_true
        rw [if_neg hm, if_neg hnf]
        have h2 := maxPower_update_baseSpeed
          { st with baseSpeed := rpm - step, baseSpeedFound := true }
          (mkPoint mp vLim rpm).power
        by_cases hb : 100 < rpm ∧ (mkPoint mp vLim rpm).torque < 0.01
        · rw [if_pos hb]
          dsimp only
          refine (List.forall_cons _ _ _).mpr ⟨⟨?_, ?_⟩, by simp [List.Forall]⟩
          · intro hneg
            rw [mkPoint_id] at hneg
            refine ⟨solvePoint_id_neg_imp_fw mp vLim (omegaE mp rpm) hcs hneg, ?_⟩
            rw [mkPoint_speedRPM, h2.1]
            rcases Nat.eq_zero_or_pos rpm with hr0 | hrpos
            · rw [hr0] at hneg
              rw [solvePoint_idZero_id_at_standstill mp vLim hcs] at hneg
              exact absurd hneg (lt_irrefl 0)
            · exact Nat.sub_lt hrpos hstep
          · intro hle
            rw [mkPoint_speedRPM] at hle
            rw [h2.1] at hle
            have hle' : rpm ≤ rpm - step := hle
            have hr0 : rpm = 0 := by omega
            rw [mkPoint_id, hr0, solvePoint_idZero_id_at_standstill mp vLim hcs]
        · rw [if_neg hb]
          dsimp only
          have hfro := sweepAux_found_frozen mp vLim step n (rpm + step) _ h2.2
          refine (List.forall_cons _ _ _).mpr ⟨⟨?_, ?_⟩, ?_⟩
          · intro hneg
            rw [mkPoint_id] at hneg
            refine ⟨solvePoint_id_neg_imp_fw mp vLim (omegaE mp rpm) hcs hneg, ?_⟩
            rw [mkPoint_speedRPM, hfro.1, h2.1]
            rcases Nat.eq_zero_or_pos rpm with hr0 | hrpos
            · rw [hr0] at hneg
              rw [solvePoint_idZero_id_at_standstill mp vLim hcs] at hneg
              exact absurd hneg (lt_irrefl 0)
            · exact Nat.sub_lt hrpos hstep
          · intro hle
            rw [mkPoint_speedRPM, hfro.1, h2.1] at hle
            have hle' : rpm ≤ rpm - step := hle
            have hr0 : rpm = 0 := by omega
            rw [mkPoint_id, hr0, solvePoint_idZero_id_at_standstill mp vLim hcs]
          · have hph := sweepAux_idZero_found_phase mp vLim step hcs n (rpm + step)
              _ h2.2 (by
                rw [h2.1]
                exact lt_of_le_of_lt (Nat.sub_le rpm step)
                  (Nat.lt_add_of_pos_right hstep))
            simpa only [hfro.1] using hph
    · rw [if_neg hg]
      simp [List.Forall]

/-- C9 as written is refuted: under the zero-d strategy without flux
weakening, the point at speed 0 has `id = 0 ≤ 0` while flux weakening is not
active, so `id ≤ 0` does not imply active flux weakening above base speed. -/
theorem claim_C9_counterexample_zerod :
    ¬ (∀ mp : MotorParams, mp.controlStrategy = ControlStrategy.idZero →
        List.Forall (fun pt => pt.id ≤ 0 →
            mp.enableFluxWeakening = true
            ∧ (calculateMotorCharacteristics mp).baseSpeed < pt.speedRPM)
          (calculateMotorCharacteristics mp).points
        ∧ List.Forall (fun pt =>
            pt.speedRPM ≤ (calculateMotorCharacteristics mp).baseSpeed → pt.id = 0)
          (calculateMotorCharacteristics mp).points
        ∧ (mp.enableFluxWeakening = false →
            List.Forall (fun pt => pt.id = 0 ∧ pt.currentAngle = 0)
              (calculateMotorCharacteristics mp).points)) := by
  intro hO
  obtain ⟨hA, _, _⟩ := hO pZero rfl
  obtain ⟨l, hl⟩ := points_head_cons pZero (le_refl 0)
  rw [hl] at hA
  have hhead := ((List.forall_cons _ _ _).mp hA).1
  have hid : (mkPoint pZero (vLimOf pZero) 0).id = 0 := by
    rw [mkPoint_id]
    exact solvePoint_idZero_id_at_standstill pZero (vLimOf pZero) rfl
  have hfw := (hhead (le_of_eq hid)).1
  exact Bool.false_ne_true hfw

/-- C9 amended: under the zero-d-current strategy, a point's `id` is
STRICTLY negative only if flux weakening is active and its speed exceeds the
recorded base speed; every point at or below the base speed has `id = 0`;
and with flux weakening disabled every point has `id = 0` and current angle
0. -/
theorem claim_C9_amended_zerod (mp : MotorParams)
    (hcs : mp.controlStrategy = ControlStrategy.idZero) :
    List.Forall (fun pt => pt.id < 0 →
        mp.enableFluxWeakening = true
        ∧ (calculateMotorCharacteristics mp).baseSpeed < pt.speedRPM)
      (calculateMotorCharacteristics mp).points
    ∧ List.Forall (fun pt =>
        pt.speedRPM ≤ (calculateMotorCharacteristics mp).baseSpeed → pt.id = 0)
      (calculateMotorCharacteristics mp).points
    ∧ (mp.enableFluxWeakening = false →
        List.Forall (fun pt => pt.id = 0 ∧ pt.currentAngle = 0)
          (calculateMotorCharacteristics mp).points) := by
  have hstep : 0 < stepRPM mp := lt_of_lt_of_le (by norm_num) (le_max_left 10 _)
  have hmain := sweepAux_idZero_main mp (vLimOf mp) (stepRPM mp) hcs hstep
    (⌊mp.maxSpeed⌋.toNat + 1) 0 ⟨0, false, 0⟩ rfl
  have hbs : (calculateMotorCharacteristics mp).baseSpeed
      = (sweepAux mp (vLimOf mp) (stepRPM mp)
          (⌊mp.maxSpeed⌋.toNat + 1) 0 ⟨0, false, 0⟩).2.baseSpeed := rfl
  have hpts : (calculateMotorCharacteristics mp).points
      = (sweepAux mp (vLimOf mp) (stepRPM mp)
          (⌊mp.maxSpeed⌋.toNat + 1) 0 ⟨0, false, 0⟩).1 := rfl
  refine ⟨?_, ?_, ?_⟩
  · simp only [hbs]
    rw [hpts]
    exact List.Forall.imp (fun pt h => h.1) hmain
  · simp only [hbs]
    rw [hpts]
    exact List.Forall.imp (fun pt h => h.2) hmain
  · intro hfw
    rw [hpts]
    refine sweepAux_points_forall mp (vLimOf mp) (stepRPM mp) _ (fun rpm => ?_) _ _ _
    have hs := solvePoint_idZero_nofw mp (vLimOf mp) (omegaE mp rpm) hcs hfw
    constructor
    · rw [mkPoint_id]
      exact hs.1
    · rw [mkPoint_currentAngle, hs.2]
      simp

/-- Witness for the amended C9 at the concrete record `pZero`. -/
theorem claim_C9_amended_zerod_witness :
    pZero.controlStrategy = ControlStrategy.idZero ∧
    (List.Forall (fun pt => pt.id < 0 →
        pZero.enableFluxWeakening = true
        ∧ (calculateMotorCharacteristics pZero).baseSpeed < pt.speedRPM)
      (calculateMotorCharacteristics pZero).points
    ∧ List.Forall (fun pt =>
        pt.speedRPM ≤ (calculateMotorCharacteristics pZero).baseSpeed → pt.id = 0)
      (calculateMotorCharacteristics pZero).points
    ∧ (pZero.enableFluxWeakening = false →
        List.Forall (fun pt => pt.id = 0 ∧ pt.currentAngle = 0)
          (calculateMotorCharacteristics pZero).points)) :=
  ⟨rfl, claim_C9_amended_zerod pZero rfl⟩

/-! ### Claim C10: determinism -/

/-- C10: the curve generator is a pure function of the parameter record —
two invocations on equal records return equal results in every field. -/
theorem claim_C10_deterministic (mp mq : MotorParams) (h : mp = mq) :
    calculateMotorCharacteristics mp = calculateMotorCharacteristics mq := by
  rw [h]

/-- Witness for C10 at the concrete record `pZero`. -/
theorem claim_C10_deterministic_witness :
    calculateMotorCharacteristics pZero = calculateMotorCharacteristics pZero :=
  claim_C10_deterministic pZero pZero rfl

end MotorPhysics
